import Mathlib

/-!
# Verification of the encviz spatial compositor and symbology pipeline

A shallow embedding, in Lean 4, of the algorithmic core of the `encviz`
chart-tile renderer:

* the chart selection / scale ordering / coverage-based compositing loop of
  `enc_dataset::export_data` (src/lib/encviz/enc_dataset.cpp);
* the web-mercator coordinate conversions of `web_mercator`
  (src/lib/encviz/web_mercator.cpp);
* the depth-band color selection `enc_renderer::render_depare`, the sounding
  label logic of `enc_renderer::render_depth`, and the per-zoom minimum
  presentation scale of `enc_renderer::render`;
* the hex color-code parser `encviz::parse_color` (style.cpp).

Geometries are modelled pointwise as finite sets of integer grid cells
(`Region`); the OGR layer operations used by the compositor act pointwise,
so `Clip` is intersection, `Erase` is set difference and `Union` is set
union in this model.  Floating point `double` arithmetic is modelled by `ℚ`
where only comparisons matter, and by `ℝ` for the transcendental projection
formulas.  C++ exceptions are modelled by `Option` (`none` = throw).
-/

namespace encviz

/-! ## Colors and the hex color-code parser (style.cpp `parse_color`) -/

/-- 4-channel 8-bit color, from `struct color` in include/encviz/style.h.
Channels are stored as `ℕ`; the parser only produces values below 256. -/
structure color where
  alpha : ℕ
  red : ℕ
  blue : ℕ
  green : ℕ
deriving DecidableEq

/-- The `GET8(x, y)` helper macro from style.cpp: `0xff & (x >> y)`. -/
def GET8 (x y : ℕ) : ℕ := 0xff &&& (x >>> y)

/-- The `GET4(x, y)` helper macro from style.cpp: `0x11 * (0xf & (x >> y))`. -/
def GET4 (x y : ℕ) : ℕ := 0x11 * (0xf &&& (x >>> y))

/-- Value of a hexadecimal digit character, `none` for non-hex characters
(the digit classification used by C `strtoul` with base 16). -/
def hexVal (c : Char) : Option ℕ :=
  if '0' ≤ c ∧ c ≤ '9' then some (c.toNat - '0'.toNat)
  else if 'a' ≤ c ∧ c ≤ 'f' then some (c.toNat - 'a'.toNat + 10)
  else if 'A' ≤ c ∧ c ≤ 'F' then some (c.toNat - 'A'.toNat + 10)
  else none

/-- Greedily consume hexadecimal digits, accumulating the value in base 16;
returns the accumulated value and the number of characters consumed. -/
def hex_run : List Char → ℕ → ℕ → ℕ × ℕ
  | [], acc, n => (acc, n)
  | c :: rest, acc, n =>
    match hexVal c with
    | some v => hex_run rest (acc * 16 + v) (n + 1)
    | none => (acc, n)

/-- C `isspace` in the default locale, as used by `strtoul`. -/
def is_c_space (c : Char) : Bool :=
  c == ' ' || c == '\t' || c == '\n' || c == Char.ofNat 11 ||
  c == Char.ofNat 12 || c == '\r'

/-- Does the list start with a hexadecimal digit? -/
def first_is_hex : List Char → Bool
  | [] => false
  | d :: _ => (hexVal d).isSome

/-- The digits part of C `strtoul(s, &e, 16)`, after whitespace and sign:
an optional `0x`/`0X` prefix (consumed only when followed by a hex digit;
a bare `0x` consumes just the `0`), then a run of hex digits.  Returns
(value, characters consumed). -/
def strtoul_base16_tail (s : List Char) : ℕ × ℕ :=
  match s with
  | c0 :: c :: rest =>
    if c0 == '0' && (c == 'x' || c == 'X') && first_is_hex rest then
      let p := hex_run rest 0 0
      (p.1, p.2 + 2)
    else hex_run (c0 :: c :: rest) 0 0
  | _ => hex_run s 0 0

/-- C `strtoul(s, &e, 16)` on a NUL-free string: optional whitespace, an
optional single sign, then `strtoul_base16_tail`.  Returns the converted
value (reduced into the `unsigned long` range, negated mod `2^64` for a
leading minus) and `e - s`, the total number of characters consumed; when
no digits are found nothing is consumed and the value is 0. -/
def strtoul_base16 (s : List Char) : ℕ × ℕ :=
  let ws := (s.takeWhile is_c_space).length
  match s.drop ws with
  | [] => (0, 0)
  | c :: r =>
    if c == '+' then
      let p := strtoul_base16_tail r
      if p.2 = 0 then (0, 0) else (p.1 % 2^64, ws + 1 + p.2)
    else if c == '-' then
      let p := strtoul_base16_tail r
      if p.2 = 0 then (0, 0) else ((2^64 - p.1 % 2^64) % 2^64, ws + 1 + p.2)
    else
      let p := strtoul_base16_tail (c :: r)
      if p.2 = 0 then (0, 0) else (p.1 % 2^64, ws + p.2)

/-- `encviz::parse_color` from style.cpp.  The C++ takes the text of an XML
element, calls `strtoul(code, &eptr, 16)`, throws unless the whole string
was consumed (`eptr - code == strlen(code)`), then switches on the string
length: 3 (4-bit RGB), 4 (4-bit ARGB), 6 (8-bit RGB), 8 (8-bit ARGB),
throwing for any other length.  `none` models a throw. -/
def parse_color (code : String) : Option color :=
  let s := code.toList
  let len := s.length
  let r := strtoul_base16 s
  if r.2 ≠ len then none
  else if len = 3 then
    some { alpha := 0xff, red := GET4 r.1 8, green := GET4 r.1 4, blue := GET4 r.1 0 }
  else if len = 4 then
    some { alpha := GET4 r.1 12, red := GET4 r.1 8, green := GET4 r.1 4, blue := GET4 r.1 0 }
  else if len = 6 then
    some { alpha := 0xff, red := GET8 r.1 16, green := GET8 r.1 8, blue := GET8 r.1 0 }
  else if len = 8 then
    some { alpha := GET8 r.1 24, red := GET8 r.1 16, green := GET8 r.1 8, blue := GET8 r.1 0 }
  else none

/-- The color-code predicate as the spec words it (for comparison with the
code's `parse_color`): every character is a hexadecimal digit and the
length is 3, 4, 6 or 8.  This definition follows the spec, not the source. -/
def spec_hex_code (s : String) : Bool :=
  s.toList.all (fun c => (hexVal c).isSome) &&
  (s.length == 3 || s.length == 4 || s.length == 6 || s.length == 8)

/-! ## The spatial compositor (`enc_dataset::export_data`)

Geometries are finite sets of integer grid cells; the OGR geometry set
operations used by `export_data` act pointwise on them. -/

/-- A geometry, modelled pointwise as a finite set of integer grid cells. -/
abbrev Region := Finset (ℤ × ℤ)

/-- `OGREnvelope`: an axis-aligned bounding rectangle with `double`
coordinates, modelled over `ℚ`. -/
structure Envelope where
  MinX : ℚ
  MaxX : ℚ
  MinY : ℚ
  MaxY : ℚ
deriving DecidableEq

/-- `OGREnvelope::Intersects` (GDAL ogr_core.h): inclusive interval overlap
on both axes. -/
def Envelope.Intersects (a other : Envelope) : Bool :=
  decide (a.MinX ≤ other.MaxX) && decide (other.MinX ≤ a.MaxX) &&
  decide (a.MinY ≤ other.MaxY) && decide (other.MinY ≤ a.MaxY)

/-- The grid cells lying inside an envelope: the pointwise counterpart of
the bbox polygon built by `enc_dataset::create_bbox_feature`. -/
def Envelope.cells (e : Envelope) : Region :=
  Finset.Icc (⌈e.MinX⌉, ⌈e.MinY⌉) (⌊e.MaxX⌋, ⌊e.MaxY⌋)

/-- An OGR feature as the compositor sees it: a stable feature identifier
(`GetFID`) and a geometry. -/
structure Feature where
  fid : ℤ
  geom : Region
deriving DecidableEq

/-- One indexed chart together with the content `export_data` reads after
opening it: `name`/`scale`/`bbox` are the `enc_dataset::metadata` fields
(index key, `DSPM_CSCL`, cached coverage envelope); `coverage` is the
chart's declared coverage geometry (`M_COVR` features with `CATCOV` = 1,
re-read from the dataset by `copy_chart_coverage`); `layers` are the
chart's named feature layers. -/
structure Chart where
  name : String
  scale : ℤ
  bbox : Envelope
  coverage : Region
  layers : List (String × List Feature)
deriving DecidableEq

/-- The fixed allow-list of layer names whose features are copied whole and
merged by feature id instead of clipped (the `||` chain at
enc_dataset.cpp:184-192; the `RESARE` entry is commented out there). -/
def merge_layers : List String :=
  ["TSSLPT", "ACHBRT", "LNDARE", "SEAARE", "BUAARE", "LNDRGN", "CBLSUB", "M_COVR"]

/-- Look up a chart's layer by name (`GDALDataset::GetLayerByName`): first
entry with that name, `none` when the chart does not carry the layer. -/
def get_chart_layer (c : Chart) (lname : String) : Option (List Feature) :=
  (c.layers.find? (fun p => p.1 == lname)).map (fun p => p.2)

/-- The output dataset: named layers in creation order. -/
abbrev Output := List (String × List Feature)

/-- `GetLayerByName` on the output dataset. -/
def get_output_layer (out : Output) (lname : String) : Option (List Feature) :=
  (out.find? (fun p => p.1 == lname)).map (fun p => p.2)

/-- Apply `f` to the (first) output layer named `lname`. -/
def update_output_layer (out : Output) (lname : String)
    (f : List Feature → List Feature) : Output :=
  match out with
  | [] => []
  | (m, fs) :: rest =>
    if m == lname then (m, f fs) :: rest
    else (m, fs) :: update_output_layer rest lname f

/-- `OGRLayer::Clip` against the remaining-coverage layer, pointwise: each
input feature keeps the part of its geometry inside `region`; features
left with no geometry produce no output feature. -/
def clip_feats (feats : List Feature) (region : Region) : List Feature :=
  feats.filterMap (fun f =>
    let g := f.geom ∩ region
    if g = ∅ then none else some { fid := f.fid, geom := g })

/-- One iteration of the allow-list copy loop (enc_dataset.cpp:195-231):
if the output layer already has a feature with the incoming feature's FID,
replace its geometry by the union of the existing and incoming geometries
(`ogeo->Union(feat->GetGeometryRef())`); otherwise copy the feature in. -/
def upsert_feature (olayer : List Feature) (f : Feature) : List Feature :=
  if olayer.any (fun g => g.fid == f.fid) then
    olayer.map (fun g => if g.fid == f.fid then { fid := g.fid, geom := g.geom ∪ f.geom } else g)
  else olayer ++ [f]

/-- The allow-list branch: fold `upsert_feature` over the chart layer's
features in order. -/
def merge_feats (olayer : List Feature) (ifeats : List Feature) : List Feature :=
  ifeats.foldl upsert_feature olayer

/-- Process one requested layer name of one chart (the body of the layer
loop at enc_dataset.cpp:163-241): skip when the chart lacks the layer;
merge by feature id for allow-listed layers; otherwise clip against the
remaining coverage and append. -/
def process_layer (out : Output) (remaining : Region) (c : Chart) (lname : String) :
    Output :=
  match get_chart_layer c lname with
  | none => out
  | some ifeats =>
    if lname ∈ merge_layers then
      update_output_layer out lname (fun o => merge_feats o ifeats)
    else
      update_output_layer out lname (fun o => o ++ clip_feats ifeats remaining)

/-- The compositor's per-run state: output dataset, remaining coverage
(the clip layer) and the names of the charts opened so far, in order. -/
structure ExportState where
  out : Output
  remaining : Region
  processed : List String
deriving DecidableEq

/-- Process one chart (one iteration of the chart loop at
enc_dataset.cpp:153-262): process every requested layer against the
pre-chart remaining coverage, then erase the chart's declared coverage
from the remaining coverage (`clip_layer->Erase(coverage_layer, ...)`). -/
def process_chart (layers : List String) (st : ExportState) (c : Chart) : ExportState :=
  { out := layers.foldl (fun o ln => process_layer o st.remaining c ln) st.out
    remaining := st.remaining \ c.coverage
    processed := st.processed ++ [c.name] }

/-- The chart loop with its early exit: after each chart, stop if the
remaining coverage is empty (`clip_layer->GetFeatureCount() == 0`,
enc_dataset.cpp:257-261). -/
def run_charts (layers : List String) : List Chart → ExportState → ExportState
  | [], st => st
  | c :: cs, st =>
    let st' := process_chart layers st c
    if st'.remaining = ∅ then st' else run_charts layers cs st'

/-- The chart-selection filter (enc_dataset.cpp:110-117): keep indexed
charts with `scale_min <= chart.scale` whose coverage envelope intersects
the requested bbox. -/
def select_charts (index : List Chart) (bbox : Envelope) (scale_min : ℤ) : List Chart :=
  index.filter (fun c => decide (scale_min ≤ c.scale) && bbox.Intersects c.bbox)

/-- Insert a chart into a list sorted by ascending compilation scale. -/
def insert_chart (c : Chart) : List Chart → List Chart
  | [] => [c]
  | d :: ds => if c.scale ≤ d.scale then c :: d :: ds else d :: insert_chart c ds

/-- Sort charts in ascending scale order, most detailed first
(`std::sort` with comparator `a->scale < b->scale`,
enc_dataset.cpp:123-126; ties are ordered arbitrarily there, any sorted
permutation refines it). -/
def sort_charts : List Chart → List Chart
  | [] => []
  | c :: cs => insert_chart c (sort_charts cs)

/-- `enc_dataset::export_data`: filter the chart index, return `false`
leaving the output dataset untouched when nothing matches, otherwise sort
by ascending scale, create the requested (empty) output layers, seed the
remaining coverage with the bbox cells and run the chart loop.  Returns
the `bool` result and the final output dataset. -/
def export_data (index : List Chart) (ods : Output) (layers : List String)
    (bbox : Envelope) (scale_min : ℤ) : Bool × Output :=
  let selected := select_charts index bbox scale_min
  if selected.isEmpty then (false, ods)
  else
    let sorted := sort_charts selected
    let ods1 := ods ++ layers.map (fun n => (n, ([] : List Feature)))
    let st := run_charts layers sorted
      { out := ods1, remaining := bbox.cells, processed := [] }
    (true, st.out)

/-- States of the chart loop without the early exit: the state after
unconditionally processing the first `n` charts.  Up to the loop's break
point this coincides with the states `run_charts` passes through. -/
def fold_state (layers : List String) (st : ExportState) (cs : List Chart) (n : ℕ) :
    ExportState :=
  (cs.take n).foldl (process_chart layers) st

/-! ## Depth-band coloring (`enc_renderer::render_depare`) -/

/-- The five-band depth color ramp, `struct DepareColors` from style.h. -/
structure DepareColors where
  foreshore : color
  very_shallow : color
  medium_shallow : color
  medium_deep : color
  deep : color
deriving DecidableEq

/-- The fill (and line) color chosen by `enc_renderer::render_depare` from
the feature's `DRVAL1` (minimum) and `DRVAL2` (maximum) charted depths: if
`mindepth > maxdepth` the maximum is replaced by the minimum, then the
color is picked by the cascade `< 3`, `< 5`, `< 10`, `< 25`, else deep. -/
def render_depare_color (dc : DepareColors) (mindepth maxdepth : ℚ) : color :=
  let maxdepth := if mindepth > maxdepth then mindepth else maxdepth
  if maxdepth < 3 then dc.foreshore
  else if maxdepth < 5 then dc.very_shallow
  else if maxdepth < 10 then dc.medium_shallow
  else if maxdepth < 25 then dc.medium_deep
  else dc.deep

/-! ## Sounding labels (`enc_renderer::render_depth`) -/

/-- The label text computed by `enc_renderer::render_depth`: the primary
label is `snprintf("%d", (int)floor(depth))`; the decimeter remainder is
`(int)floor((depth - depth_m) * 10)` and its subscript text is drawn only
when the remainder is nonzero (`none` = no subscript drawn). -/
def render_depth_label (depth : ℚ) : String × Option String :=
  let depth_m : ℤ := ⌊depth⌋
  let depth_dm : ℤ := ⌊(depth - depth_m) * 10⌋
  (toString depth_m, if depth_dm = 0 then none else some (toString depth_dm))

/-! ## Per-zoom minimum presentation scale (`enc_renderer::render`) -/

/-! ## Web mercator coordinate conversions (`web_mercator`)

The `double` arithmetic of web_mercator.cpp is modelled over `ℝ`; the
round-trip contracts hold exactly in this model, hence in particular
within any floating-point tolerance. -/

/-- `struct coord`: a 2D coordinate. -/
structure coord where
  x : ℝ
  y : ℝ

/-- Tile coordinate convention (`enum tile_coords`). -/
inductive tile_coords where
  | WTMS : tile_coords
  | XYZ : tile_coords
deriving DecidableEq

/-- The state computed by the `web_mercator` constructor: offset of the
meter origin, pixels per meter and the tile's bounding box in meters. -/
structure web_mercator where
  offset_m : ℝ
  ppm : ℝ
  bMinX : ℝ
  bMinY : ℝ
  bMaxX : ℝ
  bMaxY : ℝ

/-- The `web_mercator` constructor (web_mercator.cpp:25-58): radius
6378137 m, world side `2πR`, `offset_m = πR`, `2^z` tiles per side (with
the Y axis flipped for WTMS), per-tile side length, tile bbox in meters
and `ppm = tile_size / tile_side`. -/
noncomputable def web_mercator.make (x y z : ℕ) (tc : tile_coords) (tile_size : ℤ) :
    web_mercator :=
  let radius : ℝ := 6378137
  let world_side : ℝ := 2 * Real.pi * radius
  let offset : ℝ := world_side / 2
  let ntiles : ℕ := 2 ^ z
  let y' : ℕ := if tc = tile_coords.WTMS then ntiles - y - 1 else y
  let tile_side : ℝ := world_side / ntiles
  let minX : ℝ := x * tile_side - offset
  let minY : ℝ := y' * tile_side - offset
  { offset_m := offset
    ppm := tile_size / tile_side
    bMinX := minX
    bMinY := minY
    bMaxX := minX + tile_side
    bMaxY := minY + tile_side }

/-- `web_mercator::deg_to_meters` (web_mercator.cpp:100-108). -/
noncomputable def deg_to_meters (wm : web_mercator) (p : coord) : coord :=
  let outx : ℝ := p.x * wm.offset_m / 180
  let outy : ℝ := Real.log (Real.tan ((90 + p.y) * Real.pi / 360)) / (Real.pi / 180)
  { x := outx, y := outy * (wm.offset_m / 180) }

/-- `web_mercator::meters_to_deg` (web_mercator.cpp:116-124). -/
noncomputable def meters_to_deg (wm : web_mercator) (p : coord) : coord :=
  let outx : ℝ := p.x / wm.offset_m * 180
  let outy : ℝ := p.y / wm.offset_m * 180
  { x := outx
    y := 180 / Real.pi * (2 * Real.arctan (Real.exp (outy * Real.pi / 180)) - Real.pi / 2) }

/-- `web_mercator::meters_to_pixels` (web_mercator.cpp:132-140): meters
from the top-left tile corner scaled by pixels per meter. -/
noncomputable def meters_to_pixels (wm : web_mercator) (p : coord) : coord :=
  { x := (p.x - wm.bMinX) * wm.ppm
    y := (wm.bMaxY - p.y) * wm.ppm }

/-- `web_mercator::pixels_to_meters` (web_mercator.cpp:148-156). -/
noncomputable def pixels_to_meters (wm : web_mercator) (p : coord) : coord :=
  { x := wm.bMinX + p.x / wm.ppm
    y := wm.bMaxY - p.y / wm.ppm }

/-- The hard-coded minimum presentation scale computed in
`enc_renderer::render` from the zoom level alone and passed to
`enc_dataset::export_data`: a cascade of reassignments
`scale_min = 1200000; if (z >= 7) ...; if (z >= 11) ...; ...`. -/
def render_scale_min (z : ℤ) : ℤ :=
  let s := 1200000
  let s := if 7 ≤ z then 675000 else s
  let s := if 11 ≤ z then 35000 else s
  let s := if 13 ≤ z then 4500 else s
  let s := if 15 ≤ z then 2200 else s
  s

/-! ## Theorems -/

/-- C10: the minimum compilation-scale threshold passed to compositing is a
function of the zoom level alone, equal to 1200000 for `z < 7`, 675000 for
`7 <= z < 11`, 35000 for `11 <= z < 13`, 4500 for `13 <= z < 15` and 2200
for `z >= 15`; the configured scale-normalization base and the tile's
latitude do not enter the computation. -/
theorem render_scale_min_piecewise (z : ℤ) :
    render_scale_min z =
      if z < 7 then 1200000 else if z < 11 then 675000
      else if z < 13 then 35000 else if z < 15 then 4500 else 2200 := by
  simp only [render_scale_min]
  split_ifs <;> omega

/-- C7: for depth (and dredged) areas the fill color is chosen from the
5-band ramp by half-open intervals on the charted depth: `< 3` foreshore,
`< 5` very shallow, `< 10` medium shallow, `< 25` medium deep, otherwise
deep; a depth exactly 3, 5, 10 or 25 falls into the band below the
threshold (depth 5 gives medium shallow, not very shallow). -/
theorem render_depare_color_bands :
    (∀ (dc : DepareColors) (mindepth maxdepth : ℚ), mindepth ≤ maxdepth →
      render_depare_color dc mindepth maxdepth =
        (if maxdepth < 3 then dc.foreshore
         else if maxdepth < 5 then dc.very_shallow
         else if maxdepth < 10 then dc.medium_shallow
         else if maxdepth < 25 then dc.medium_deep
         else dc.deep)) ∧
    (∀ dc : DepareColors,
      render_depare_color dc 3 3 = dc.very_shallow ∧
      render_depare_color dc 5 5 = dc.medium_shallow ∧
      render_depare_color dc 10 10 = dc.medium_deep ∧
      render_depare_color dc 25 25 = dc.deep) := by
  constructor
  · intro dc mindepth maxdepth h
    unfold render_depare_color
    rw [if_neg (not_lt.mpr h)]
  · intro dc
    refine ⟨?_, ?_, ?_, ?_⟩ <;> norm_num [render_depare_color]

/-- C7 witness -/
theorem render_depare_color_bands_witness :
    (0 : ℚ) ≤ 4 ∧
    render_depare_color ⟨⟨0,1,0,0⟩, ⟨0,2,0,0⟩, ⟨0,3,0,0⟩, ⟨0,4,0,0⟩, ⟨0,5,0,0⟩⟩ 0 4 =
      (if (4:ℚ) < 3 then (⟨0,1,0,0⟩ : color)
       else if (4:ℚ) < 5 then ⟨0,2,0,0⟩
       else if (4:ℚ) < 10 then ⟨0,3,0,0⟩
       else if (4:ℚ) < 25 then ⟨0,4,0,0⟩
       else ⟨0,5,0,0⟩) :=
  ⟨by norm_num,
   render_depare_color_bands.1 ⟨⟨0,1,0,0⟩, ⟨0,2,0,0⟩, ⟨0,3,0,0⟩, ⟨0,4,0,0⟩, ⟨0,5,0,0⟩⟩
     0 4 (by norm_num)⟩

/-- C8: a sounding's label is the floor of the depth in meters, with the
decimeter-remainder subscript omitted exactly when the remainder is zero
(the fractional part is below one decimeter); in particular a sounding of
12.0 renders the label 12 with no subscript and 12.3 renders 12 with
subscript 3. -/
theorem render_depth_label_spec :
    (∀ depth : ℚ,
      (render_depth_label depth).1 = toString ⌊depth⌋ ∧
      ((render_depth_label depth).2 = none ↔ depth - ⌊depth⌋ < 1/10)) ∧
    render_depth_label 12 = ("12", none) ∧
    render_depth_label (123/10) = ("12", some "3") := by
  refine ⟨fun depth => ⟨rfl, ?_⟩, ?_, ?_⟩
  · have h0 : (0:ℚ) ≤ depth - ⌊depth⌋ := sub_nonneg.mpr (Int.floor_le depth)
    have key : (⌊(depth - (⌊depth⌋ : ℤ)) * 10⌋ = 0 ↔ depth - ⌊depth⌋ < 1/10) := by
      rw [Int.floor_eq_zero_iff, Set.mem_Ico]
      constructor
      · intro h
        linarith [h.2]
      · intro h
        exact ⟨by linarith, by linarith⟩
    simp only [render_depth_label]
    split_ifs with h
    · simpa using key.mp h
    · simp only [reduceCtorEq, false_iff]
      intro hlt
      exact h (key.mpr hlt)
  · norm_num [render_depth_label]
    exact rfl
  · norm_num [render_depth_label]
    exact ⟨rfl, rfl⟩



/-- Helper: a hex digit differs from any non-hex character. -/
theorem hexVal_isSome_beq_false {c : Char} (h : (hexVal c).isSome = true)
    (d : Char) (hd : (hexVal d).isSome = false) : (c == d) = false := by
  rw [beq_eq_false_iff_ne]
  rintro rfl
  rw [h] at hd
  cases hd

/-- Helper: a run over hex digits consumes them all. -/
theorem hex_run_all_hex (l : List Char) (h : l.all (fun c => (hexVal c).isSome) = true) :
    ∀ acc n, (hex_run l acc n).2 = n + l.length := by
  induction l with
  | nil => intro acc n; simp [hex_run]
  | cons c rest ih =>
    intro acc n
    rw [List.all_cons, Bool.and_eq_true] at h
    obtain ⟨hc, hrest⟩ := h
    cases hv : hexVal c with
    | none => rw [hv] at hc; cases hc
    | some v =>
      simp only [hex_run, hv]
      rw [ih hrest]
      simp [List.length_cons]
      omega

/-- Helper: on an all-hex string strtoul consumes every character. -/
theorem strtoul_base16_all_hex (s : List Char)
    (h : s.all (fun c => (hexVal c).isSome) = true) (hne : s ≠ []) :
    (strtoul_base16 s).2 = s.length := by
  obtain ⟨c, rest, rfl⟩ : ∃ c rest, s = c :: rest := by
    cases s with
    | nil => exact absurd rfl hne
    | cons c rest => exact ⟨c, rest, rfl⟩
  rw [List.all_cons, Bool.and_eq_true] at h
  obtain ⟨hc, hrest⟩ := h
  have hspace : is_c_space c = false := by
    unfold is_c_space
    rw [hexVal_isSome_beq_false hc ' ' (by decide),
        hexVal_isSome_beq_false hc '\t' (by decide),
        hexVal_isSome_beq_false hc '\n' (by decide),
        hexVal_isSome_beq_false hc (Char.ofNat 11) (by decide),
        hexVal_isSome_beq_false hc (Char.ofNat 12) (by decide),
        hexVal_isSome_beq_false hc '\r' (by decide)]
    rfl
  have htail : (strtoul_base16_tail (c :: rest)).2 = (c :: rest).length := by
    have hall : (c :: rest).all (fun x => (hexVal x).isSome) = true := by
      rw [List.all_cons, Bool.and_eq_true]; exact ⟨hc, hrest⟩
    cases rest with
    | nil =>
      simp only [strtoul_base16_tail]
      rw [hex_run_all_hex _ hall]
      omega
    | cons c2 rest2 =>
      rw [List.all_cons, Bool.and_eq_true] at hrest
      obtain ⟨hc2, hrest2⟩ := hrest
      simp only [strtoul_base16_tail]
      rw [hexVal_isSome_beq_false hc2 'x' (by decide),
          hexVal_isSome_beq_false hc2 'X' (by decide)]
      simp only [Bool.or_self, Bool.and_false, Bool.false_and, Bool.and_self]
      rw [if_neg (by simp)]
      rw [hex_run_all_hex _ hall]
      omega
  have hplus : (c == '+') = false := hexVal_isSome_beq_false hc '+' (by decide)
  have hminus : (c == '-') = false := hexVal_isSome_beq_false hc '-' (by decide)
  unfold strtoul_base16
  simp only [List.takeWhile_cons, hspace, List.length_nil, List.drop_zero,
    Bool.false_eq_true, if_false, hplus, hminus, htail]
  rw [if_neg (by simp [List.length_cons])]
  simp [List.length_cons]


/-- Helper: exact success condition of `parse_color`. -/
theorem parse_color_isSome_iff (s : String) :
    (parse_color s).isSome = true ↔
      ((strtoul_base16 s.toList).2 = s.length ∧
       (s.length = 3 ∨ s.length = 4 ∨ s.length = 6 ∨ s.length = 8)) := by
  have hlen : s.length = s.toList.length := rfl
  rw [hlen]
  simp only [parse_color]
  split_ifs with h1 h2 h3 h4 h5 <;> simp_all

/-- Helper: lengths 3 and 6 yield full opacity. -/
theorem parse_color_alpha_full (s : String) (c : color) (h : parse_color s = some c)
    (hlen : s.length = 3 ∨ s.length = 6) : c.alpha = 0xff := by
  have hl : s.length = s.toList.length := rfl
  rw [hl] at hlen
  simp only [parse_color] at h
  split_ifs at h with h1 h2 h3 h4 h5
  · rw [← Option.some.inj h]
  · rcases hlen with h6 | h6 <;> omega
  · rw [← Option.some.inj h]
  · rcases hlen with h6 | h6 <;> omega


/-- C9 counterexample: the string 0xf has length 3 but is not made of
hex digits only (it contains `x`), yet `parse_color` accepts it, because
`strtoul` consumes a `0x` prefix; so color parsing does not succeed
*exactly* on the pure hex codes of length 3/4/6/8. -/
theorem parse_color_accepts_nonhex :
    (parse_color "0xf").isSome = true ∧ spec_hex_code "0xf" = false := by
  decide

/-- C9 amended: color parsing succeeds exactly when the whole string is
consumed by C `strtoul` in base 16 (optional whitespace, optional sign,
optional `0x` prefix, hex digits) and the string length is 3, 4, 6 or 8;
for the 3- and 6-digit forms the parsed alpha channel is full opacity
(0xff); every pure hex-digit code of those lengths still parses. -/
theorem parse_color_spec :
    (∀ s : String,
      (parse_color s).isSome = true ↔
        ((strtoul_base16 s.toList).2 = s.length ∧
         (s.length = 3 ∨ s.length = 4 ∨ s.length = 6 ∨ s.length = 8))) ∧
    (∀ (s : String) (c : color), parse_color s = some c →
      s.length = 3 ∨ s.length = 6 → c.alpha = 0xff) ∧
    (∀ s : String, spec_hex_code s = true → (parse_color s).isSome = true) := by
  refine ⟨parse_color_isSome_iff, parse_color_alpha_full, ?_⟩
  intro s hs
  unfold spec_hex_code at hs
  rw [Bool.and_eq_true] at hs
  obtain ⟨hall, hlen⟩ := hs
  have hlen' : s.length = 3 ∨ s.length = 4 ∨ s.length = 6 ∨ s.length = 8 := by
    simp only [Bool.or_eq_true, beq_iff_eq] at hlen
    tauto
  have hne : s.toList ≠ [] := by
    intro h0
    have hz : s.length = 0 := by
      rw [show s.length = s.toList.length from rfl, h0]
      rfl
    rcases hlen' with h | h | h | h <;> omega
  rw [parse_color_isSome_iff]
  refine ⟨?_, hlen'⟩
  rw [strtoul_base16_all_hex s.toList hall hne]
  rfl

/-- C9 witness -/
theorem parse_color_spec_witness :
    (parse_color "abc").isSome = true ∧ spec_hex_code "abc" = true :=
  ⟨parse_color_spec.2.2 "abc" (by decide), by decide⟩


/-- C1: chart selection is exactly the scale/bbox filter, and with no
matching chart `export_data` returns false leaving the output dataset
untouched. -/
theorem export_data_selection :
    (∀ (index : List Chart) (bbox : Envelope) (scale_min : ℤ) (c : Chart),
      c ∈ select_charts index bbox scale_min ↔
        (c ∈ index ∧ scale_min ≤ c.scale ∧ bbox.Intersects c.bbox = true)) ∧
    (∀ (index : List Chart) (ods : Output) (layers : List String)
       (bbox : Envelope) (scale_min : ℤ),
      (∀ c ∈ index, ¬(scale_min ≤ c.scale ∧ bbox.Intersects c.bbox = true)) →
      export_data index ods layers bbox scale_min = (false, ods)) := by
  constructor
  · intro index bbox scale_min c
    simp [select_charts, List.mem_filter, and_assoc]
  · intro index ods layers bbox scale_min h
    have hsel : select_charts index bbox scale_min = [] := by
      simp only [select_charts]
      rw [List.filter_eq_nil_iff]
      intro c hc
      have hnc := h c hc
      simp only [Bool.and_eq_true, decide_eq_true_eq, not_and]
      intro h1 h2
      exact hnc ⟨h1, h2⟩
    simp [export_data, hsel]

/-- C1 witness: a one-chart index whose only chart fails the scale filter
yields the no-data result with the output dataset untouched. -/
theorem export_data_selection_witness :
    export_data [{ name := "US1", scale := 5, bbox := ⟨0, 1, 0, 1⟩, coverage := ∅,
                   layers := [] }] [] ["DEPARE"] ⟨0, 1, 0, 1⟩ 10 = (false, []) :=
  export_data_selection.2 _ _ _ _ _ (by decide)

/-- Helper: inserting is a permutation of consing. -/
theorem insert_chart_perm (c : Chart) (l : List Chart) :
    List.Perm (insert_chart c l) (c :: l) := by
  induction l with
  | nil => simp [insert_chart]
  | cons d ds ih =>
    by_cases hc : c.scale ≤ d.scale
    · simp [insert_chart, if_pos hc]
    · simp only [insert_chart, if_neg hc]
      exact (ih.cons d).trans (List.Perm.swap c d ds)

/-- Helper: inserting into a scale-sorted list keeps it sorted. -/
theorem insert_chart_sorted (c : Chart) (l : List Chart)
    (h : List.Sorted (fun a b : Chart => a.scale ≤ b.scale) l) :
    List.Sorted (fun a b : Chart => a.scale ≤ b.scale) (insert_chart c l) := by
  induction l with
  | nil => simp [insert_chart]
  | cons d ds ih =>
    rw [List.sorted_cons] at h
    obtain ⟨hd, hds⟩ := h
    by_cases hc : c.scale ≤ d.scale
    · simp only [insert_chart, if_pos hc, List.sorted_cons]
      refine ⟨?_, hd, hds⟩
      intro b hb
      rcases List.mem_cons.mp hb with rfl | hb
      · exact hc
      · exact le_trans hc (hd b hb)
    · simp only [insert_chart, if_neg hc, List.sorted_cons]
      refine ⟨?_, ih hds⟩
      intro b hb
      rcases List.mem_cons.mp ((insert_chart_perm c ds).mem_iff.mp hb) with rfl | hb
      · exact le_of_not_le hc
      · exact hd b hb

/-- Helper: sort_charts sorts. -/
theorem sort_charts_sorted (l : List Chart) :
    List.Sorted (fun a b : Chart => a.scale ≤ b.scale) (sort_charts l) := by
  induction l with
  | nil => simp [sort_charts]
  | cons c cs ih => exact insert_chart_sorted c _ ih

/-- Helper: sort_charts permutes. -/
theorem sort_charts_perm (l : List Chart) : List.Perm (sort_charts l) l := by
  induction l with
  | nil => simp [sort_charts]
  | cons c cs ih => exact (insert_chart_perm c _).trans (ih.cons c)

/-- C2: the chart list processed by one export run is the selected list
sorted in ascending `compilation_scale` order (most detailed first), a
deterministic function of the chart index and the request. -/
theorem export_processing_order (index : List Chart) (bbox : Envelope) (scale_min : ℤ) :
    List.Sorted (fun a b : Chart => a.scale ≤ b.scale)
      (sort_charts (select_charts index bbox scale_min)) ∧
    List.Perm (sort_charts (select_charts index bbox scale_min))
      (select_charts index bbox scale_min) :=
  ⟨sort_charts_sorted _, sort_charts_perm _⟩


/-- C3: once the remaining coverage is empty after processing a nonempty
prefix of the candidate list, running the chart loop over the whole list
is the same as running it over that prefix alone: the remaining charts
are never opened or processed. -/
theorem run_charts_stops (L : List String) (cs1 cs2 : List Chart) (st : ExportState)
    (hne : cs1 ≠ []) (hcov : (run_charts L cs1 st).remaining = ∅) :
    run_charts L (cs1 ++ cs2) st = run_charts L cs1 st := by
  induction cs1 generalizing st with
  | nil => exact absurd rfl hne
  | cons c t ih =>
    by_cases hr : (process_chart L st c).remaining = ∅
    · simp only [List.cons_append, run_charts, if_pos hr]
    · rw [run_charts, if_neg hr] at hcov
      cases t with
      | nil =>
        rw [run_charts] at hcov
        exact absurd hcov hr
      | cons d ds =>
        simp only [List.cons_append, run_charts, if_neg hr]
        exact ih (process_chart L st c) (List.cons_ne_nil d ds) hcov

/-- C3 witness -/
theorem run_charts_stops_witness :
    ([({ name := "A", scale := 1, bbox := ⟨0, 0, 0, 0⟩, coverage := {(0, 0)},
         layers := [] } : Chart)] ≠ ([] : List Chart)) ∧
    ((run_charts ["DEPARE"]
        [{ name := "A", scale := 1, bbox := ⟨0, 0, 0, 0⟩, coverage := {(0, 0)},
           layers := [] }]
        { out := [("DEPARE", [])], remaining := {(0, 0)}, processed := [] }).remaining
      = ∅) ∧
    run_charts ["DEPARE"]
        ([{ name := "A", scale := 1, bbox := ⟨0, 0, 0, 0⟩, coverage := {(0, 0)},
            layers := [] }] ++
         [{ name := "B", scale := 2, bbox := ⟨0, 0, 0, 0⟩, coverage := ∅,
            layers := [("DEPARE", [{ fid := 7, geom := {(5, 5)} }])] }])
        { out := [("DEPARE", [])], remaining := {(0, 0)}, processed := [] } =
      run_charts ["DEPARE"]
        [{ name := "A", scale := 1, bbox := ⟨0, 0, 0, 0⟩, coverage := {(0, 0)},
           layers := [] }]
        { out := [("DEPARE", [])], remaining := {(0, 0)}, processed := [] } := by
  refine ⟨by decide, by decide, ?_⟩
  exact run_charts_stops _ _ _ _ (by decide) (by decide)



/-- Helper: looking up after updating a layer applies the update. -/
theorem get_update_output_layer (out : Output) (lname : String)
    (f : List Feature → List Feature) :
    get_output_layer (update_output_layer out lname f) lname =
      (get_output_layer out lname).map f := by
  induction out with
  | nil => simp [update_output_layer, get_output_layer]
  | cons p rest ih =>
    obtain ⟨m, fs⟩ := p
    by_cases hm : (m == lname) = true
    · simp [update_output_layer, get_output_layer, List.find?, hm]
    · simp only [Bool.not_eq_true] at hm
      simp [update_output_layer, get_output_layer, List.find?, hm] at ih ⊢
      exact ih

/-- Helper: processing a chart only shrinks the remaining coverage. -/
theorem process_chart_remaining_subset (L : List String) (st : ExportState) (c : Chart) :
    (process_chart L st c).remaining ⊆ st.remaining := by
  simp only [process_chart]
  exact Finset.sdiff_subset

/-- Helper: the chart fold only shrinks the remaining coverage. -/
theorem foldl_remaining_subset (L : List String) (cs : List Chart) (st : ExportState) :
    (cs.foldl (process_chart L) st).remaining ⊆ st.remaining := by
  induction cs generalizing st with
  | nil => simp
  | cons c t ih =>
    rw [List.foldl_cons]
    exact (ih (process_chart L st c)).trans (process_chart_remaining_subset L st c)

/-- Helper: later no-break states have smaller remaining coverage. -/
theorem fold_state_mono (L : List String) (st : ExportState) (cs : List Chart)
    (i j : ℕ) (hij : i ≤ j) :
    (fold_state L st cs j).remaining ⊆ (fold_state L st cs i).remaining := by
  unfold fold_state
  rw [show j = i + (j - i) from by omega, List.take_add, List.foldl_append]
  exact foldl_remaining_subset L _ _

/-- Helper: right after chart `i` is processed, the remaining coverage is
disjoint from chart `i`'s declared coverage. -/
theorem fold_state_disjoint (L : List String) (st : ExportState) (cs : List Chart)
    (i : ℕ) (hi : i < cs.length) :
    (fold_state L st cs (i + 1)).remaining ∩ (cs.get ⟨i, hi⟩).coverage = ∅ := by
  unfold fold_state
  rw [List.take_succ, List.getElem?_eq_getElem hi]
  rw [Option.toList_some, List.foldl_append, List.foldl_cons, List.foldl_nil]
  rw [List.get_eq_getElem]
  simp only [process_chart]
  exact Finset.sdiff_inter_self _ _

/-- C5: for layers outside the merge allow-list, a chart's features are
clipped against the current remaining coverage and appended to the output
layer; and any feature surviving the clip at step `j` of the chart loop
has geometry disjoint from the declared coverage of every chart processed
at an earlier step `i < j`. -/
theorem export_clip_respects_coverage :
    (∀ lname : String, lname ∉ merge_layers →
      ∀ (c : Chart) (out : Output) (rem : Region) (ifeats old : List Feature),
        get_chart_layer c lname = some ifeats →
        get_output_layer out lname = some old →
        get_output_layer (process_layer out rem c lname) lname
          = some (old ++ clip_feats ifeats rem)) ∧
    (∀ (L : List String) (lname : String) (cs : List Chart) (st : ExportState)
       (i j : ℕ) (hij : i < j) (hj : j < cs.length) (ifeats : List Feature),
        get_chart_layer (cs.get ⟨j, hj⟩) lname = some ifeats →
        ∀ f ∈ clip_feats ifeats (fold_state L st cs j).remaining,
          f.geom ∩ (cs.get ⟨i, hij.trans hj⟩).coverage = ∅) := by
  constructor
  · intro lname hm c out rem ifeats old hchart hout
    simp only [process_layer, hchart]
    rw [if_neg hm, get_update_output_layer, hout]
    rfl
  · intro L lname cs st i j hij hj ifeats hchart f hf
    obtain ⟨f0, hf0, hg⟩ :
        ∃ f0 ∈ ifeats, f.geom = f0.geom ∩ (fold_state L st cs j).remaining := by
      simp only [clip_feats, List.mem_filterMap] at hf
      obtain ⟨f0, h1, h2⟩ := hf
      split_ifs at h2 with hgo
      exact ⟨f0, h1, by rw [← Option.some.inj h2]⟩
    have hsub : f.geom ⊆ (fold_state L st cs j).remaining := by
      rw [hg]
      exact Finset.inter_subset_right
    have hmono : (fold_state L st cs j).remaining ⊆ (fold_state L st cs (i + 1)).remaining :=
      fold_state_mono L st cs (i + 1) j (by omega)
    have hdis : (fold_state L st cs (i + 1)).remaining ∩
        (cs.get ⟨i, hij.trans hj⟩).coverage = ∅ :=
      fold_state_disjoint L st cs i (hij.trans hj)
    have hss : f.geom ∩ (cs.get ⟨i, hij.trans hj⟩).coverage ⊆
        (fold_state L st cs (i + 1)).remaining ∩ (cs.get ⟨i, hij.trans hj⟩).coverage :=
      Finset.inter_subset_inter (hsub.trans hmono) (Finset.Subset.refl _)
    rw [hdis] at hss
    exact Finset.subset_empty.mp hss


/-- C5 witness -/
theorem export_clip_respects_coverage_witness :
    ("DEPARE" ∉ merge_layers) ∧
    get_output_layer
        (process_layer [("DEPARE", [])] {(0, 0)}
          { name := "B", scale := 2, bbox := ⟨0, 0, 0, 0⟩, coverage := ∅,
            layers := [("DEPARE", [{ fid := 1, geom := {(0, 0), (2, 2)} }])] }
          "DEPARE") "DEPARE"
      = some ([] ++ clip_feats [{ fid := 1, geom := {(0, 0), (2, 2)} }] {(0, 0)}) ∧
    (({ fid := 7, geom := {(1, 1)} } : Feature).geom ∩
        ((List.get
          [({ name := "A", scale := 1, bbox := ⟨0, 0, 0, 0⟩, coverage := {(0, 0)},
              layers := [] } : Chart),
           { name := "B", scale := 2, bbox := ⟨0, 0, 0, 0⟩, coverage := ∅,
             layers := [("DEPARE", [{ fid := 7, geom := {(1, 1)} }])] }]
          ⟨0, by decide⟩).coverage)
      = ∅) := by
  refine ⟨by decide, ?_, ?_⟩
  · exact export_clip_respects_coverage.1 "DEPARE" (by decide) _ _ _ _ _
      (by decide) (by decide)
  · exact export_clip_respects_coverage.2 ["DEPARE"] "DEPARE"
      [{ name := "A", scale := 1, bbox := ⟨0, 0, 0, 0⟩, coverage := {(0, 0)},
         layers := [] },
       { name := "B", scale := 2, bbox := ⟨0, 0, 0, 0⟩, coverage := ∅,
         layers := [("DEPARE", [{ fid := 7, geom := {(1, 1)} }])] }]
      { out := [("DEPARE", [])], remaining := {(0, 0), (1, 1)}, processed := [] }
      0 1 (by decide) (by decide) [{ fid := 7, geom := {(1, 1)} }]
      (by decide) { fid := 7, geom := {(1, 1)} } (by decide)


/-- C4: when two selected charts both carry, on a merge allow-listed layer,
a feature with the same stable feature identifier, the exported layer holds
that feature exactly once, with geometry the union of both inputs. -/
theorem merge_layer_union_once
    (lname nameA nameB : String) (fid : ℤ) (g1 g2 covA covB : Region)
    (sA sB smin : ℤ) (bbA bbB bbox : Envelope)
    (hmem : lname ∈ merge_layers)
    (hselA : smin ≤ sA) (hintA : bbox.Intersects bbA = true)
    (hselB : smin ≤ sB) (hintB : bbox.Intersects bbB = true)
    (horder : sA ≤ sB)
    (hrem : ¬(bbox.cells \ covA = ∅)) :
    get_output_layer
        (export_data
          [{ name := nameA, scale := sA, bbox := bbA, coverage := covA,
             layers := [(lname, [{ fid := fid, geom := g1 }])] },
           { name := nameB, scale := sB, bbox := bbB, coverage := covB,
             layers := [(lname, [{ fid := fid, geom := g2 }])] }]
          [] [lname] bbox smin).2 lname
      = some [{ fid := fid, geom := g1 ∪ g2 }] := by
  have hsel : select_charts
      [{ name := nameA, scale := sA, bbox := bbA, coverage := covA,
         layers := [(lname, [{ fid := fid, geom := g1 }])] },
       { name := nameB, scale := sB, bbox := bbB, coverage := covB,
         layers := [(lname, [{ fid := fid, geom := g2 }])] }] bbox smin =
      [{ name := nameA, scale := sA, bbox := bbA, coverage := covA,
         layers := [(lname, [{ fid := fid, geom := g1 }])] },
       { name := nameB, scale := sB, bbox := bbB, coverage := covB,
         layers := [(lname, [{ fid := fid, geom := g2 }])] }] := by
    simp [select_charts, hselA, hselB, hintA, hintB]
  rw [export_data]
  rw [hsel]
  simp [sort_charts, insert_chart, horder, run_charts, process_chart, process_layer,
    get_chart_layer, merge_feats, upsert_feature, update_output_layer, get_output_layer,
    hmem, hrem, List.find?]

/-- C4 witness -/
theorem merge_layer_union_once_witness :
    ("LNDARE" ∈ merge_layers) ∧
    ¬(Envelope.cells ⟨0, 0, 0, 0⟩ \ (∅ : Region) = ∅) ∧
    get_output_layer
        (export_data
          [{ name := "A", scale := 1, bbox := ⟨0, 0, 0, 0⟩, coverage := ∅,
             layers := [("LNDARE", [{ fid := 0, geom := {(0, 0)} }])] },
           { name := "B", scale := 2, bbox := ⟨0, 0, 0, 0⟩, coverage := ∅,
             layers := [("LNDARE", [{ fid := 0, geom := {(0, 1)} }])] }]
          [] ["LNDARE"] ⟨0, 0, 0, 0⟩ 0).2 "LNDARE"
      = some [{ fid := 0, geom := {(0, 0)} ∪ {(0, 1)} }] := by
  have hrem : ¬(Envelope.cells ⟨0, 0, 0, 0⟩ \ (∅ : Region) = ∅) := by
    simp [Envelope.cells]
  refine ⟨by decide, hrem, ?_⟩
  exact merge_layer_union_once "LNDARE" "A" "B" 0 {(0, 0)} {(0, 1)} ∅ ∅ 1 2 0
    ⟨0, 0, 0, 0⟩ ⟨0, 0, 0, 0⟩ ⟨0, 0, 0, 0⟩ (by decide) (by decide) (by decide)
    (by decide) (by decide) (by decide) hrem


/-- Helper: the constructed offset is positive (it is `π · 6378137`). -/
theorem make_offset_pos (x y z : ℕ) (tc : tile_coords) (ts : ℤ) :
    0 < (web_mercator.make x y z tc ts).offset_m := by
  simp only [web_mercator.make]
  positivity

/-- Helper: with a positive tile size the pixels-per-meter ratio is
nonzero. -/
theorem make_ppm_ne_zero (x y z : ℕ) (tc : tile_coords) (ts : ℤ) (h : 0 < ts) :
    (web_mercator.make x y z tc ts).ppm ≠ 0 := by
  simp only [web_mercator.make]
  have hside : (0:ℝ) < 2 * Real.pi * 6378137 / (2 ^ z : ℕ) := by positivity
  have hts : (0:ℝ) < (ts : ℝ) := by exact_mod_cast h
  exact div_ne_zero (ne_of_gt hts) (ne_of_gt hside)

/-- Helper: the meters/pixels conversions invert each other whenever the
pixels-per-meter ratio is nonzero. -/
theorem pixels_meters_round_trip (wm : web_mercator) (p : coord) (h : wm.ppm ≠ 0) :
    pixels_to_meters wm (meters_to_pixels wm p) = p := by
  obtain ⟨px, py⟩ := p
  simp only [meters_to_pixels, pixels_to_meters, coord.mk.injEq]
  constructor <;> field_simp

/-- Helper: the degrees/meters conversions invert each other for latitudes
strictly between the poles, whenever the offset is nonzero. -/
theorem deg_meters_round_trip (wm : web_mercator) (p : coord)
    (hoff : wm.offset_m ≠ 0) (h1 : -90 < p.y) (h2 : p.y < 90) :
    meters_to_deg wm (deg_to_meters wm p) = p := by
  obtain ⟨px, py⟩ := p
  simp only at h1 h2
  simp only [deg_to_meters, meters_to_deg, coord.mk.injEq]
  have hpi : Real.pi ≠ 0 := Real.pi_ne_zero
  have h90 : (0:ℝ) < 90 + py := by linarith
  have hθpos : 0 < (90 + py) * Real.pi / 360 := by positivity
  have hθlt : (90 + py) * Real.pi / 360 < Real.pi / 2 := by
    have h180 : (90:ℝ) + py < 180 := by linarith
    nlinarith [Real.pi_pos]
  have htan : 0 < Real.tan ((90 + py) * Real.pi / 360) :=
    Real.tan_pos_of_pos_of_lt_pi_div_two hθpos hθlt
  constructor
  · field_simp
    ring
  · have harg :
        Real.log (Real.tan ((90 + py) * Real.pi / 360)) / (Real.pi / 180) *
          (wm.offset_m / 180) / wm.offset_m * 180 * Real.pi / 180
          = Real.log (Real.tan ((90 + py) * Real.pi / 360)) := by
      field_simp
      ring
    rw [harg, Real.exp_log htan,
        Real.arctan_tan (lt_trans (neg_lt_zero.mpr (by positivity)) hθpos) hθlt]
    field_simp
    ring

/-- C6: for every tile address, converting meters to pixels and back is
the identity, and converting degrees to meters and back is the identity
for latitudes strictly between the poles; both hold exactly in the
real-number model of the double arithmetic. -/
theorem web_mercator_round_trip (x y z : ℕ) (tc : tile_coords) (tile_size : ℤ)
    (hts : 0 < tile_size) (p : coord) :
    pixels_to_meters (web_mercator.make x y z tc tile_size)
        (meters_to_pixels (web_mercator.make x y z tc tile_size) p) = p ∧
    (-90 < p.y → p.y < 90 →
      meters_to_deg (web_mercator.make x y z tc tile_size)
        (deg_to_meters (web_mercator.make x y z tc tile_size) p) = p) :=
  ⟨pixels_meters_round_trip _ p (make_ppm_ne_zero x y z tc tile_size hts),
   fun h1 h2 => deg_meters_round_trip _ p
     (ne_of_gt (make_offset_pos x y z tc tile_size)) h1 h2⟩

/-- C6 witness -/
theorem web_mercator_round_trip_witness :
    (0 : ℤ) < 256 ∧
    pixels_to_meters (web_mercator.make 0 0 0 tile_coords.XYZ 256)
        (meters_to_pixels (web_mercator.make 0 0 0 tile_coords.XYZ 256) ⟨0, 0⟩) = ⟨0, 0⟩ ∧
    meters_to_deg (web_mercator.make 0 0 0 tile_coords.XYZ 256)
        (deg_to_meters (web_mercator.make 0 0 0 tile_coords.XYZ 256) ⟨0, 0⟩) = ⟨0, 0⟩ := by
  have h := web_mercator_round_trip 0 0 0 tile_coords.XYZ 256 (by norm_num) ⟨0, 0⟩
  exact ⟨by norm_num, h.1, h.2 (by norm_num) (by norm_num)⟩


end encviz
